import Mathlib

/-!
Shallow embedding of the UFCA token contract
(contracts/InvestmentUnitUpgradeable.sol, emitted by the project
generator script) together with the OpenZeppelin 4.9 ERC20Upgradeable /
PausableUpgradeable internals it inherits (`_mint`, `_burn`, `_transfer`,
`_pause`, `_unpause`), which determine the order in which the contract's
`_beforeTokenTransfer` / `_afterTokenTransfer` hooks run relative to the
zero-address and balance checks.

Solidity 0.8 checked arithmetic reverts on overflow rather than wrapping,
so completed executions agree with the usual Nat semantics used here.
Addresses are modelled as `Fin (n + 1)`; address `0` is the zero address
used as the mint source and burn destination.
-/

namespace UFCA

/-- struct Vesting { uint256 total; uint256 released; uint64 start; uint64 duration; } -/
structure Vesting where
  total : Nat
  released : Nat
  start : Nat
  duration : Nat
deriving DecidableEq, Repr

/-- Revert reasons of the contract and of the inherited OpenZeppelin code,
one constructor per distinct revert string. -/
inductive Err where
  /-- "Ownable: caller is not the owner" -/
  | unauthorized
  /-- "Pausable: paused" (the whenNotPaused modifier) -/
  | systemPaused
  /-- "Pausable: not paused" (the whenPaused modifier on unpause) -/
  | notPaused
  /-- "Not whitelisted" (the require in mint / mintWithVesting) -/
  | recipientNotWhitelisted
  /-- "Vesting exists" -/
  | vestingAlreadyExists
  /-- "Sender frozen" -/
  | senderFrozen
  /-- "Sender not whitelisted" -/
  | senderNotWhitelisted
  /-- "Amount locked" -/
  | amountLocked
  /-- "Receiver frozen" -/
  | receiverFrozen
  /-- "Receiver not whitelisted" -/
  | receiverNotWhitelisted
  /-- "ERC20: mint to the zero address" -/
  | mintToZero
  /-- "ERC20: burn from the zero address" -/
  | burnFromZero
  /-- "ERC20: transfer from the zero address" -/
  | transferFromZero
  /-- "ERC20: transfer to the zero address" -/
  | transferToZero
  /-- "ERC20: burn amount exceeds balance" -/
  | insufficientBalanceBurn
  /-- "ERC20: transfer amount exceeds balance" -/
  | insufficientBalanceTransfer
deriving DecidableEq, Repr

/-- The contract's storage: ERC20 balances and total supply, the owner,
the pause flag, and the whitelist / frozen / vesting mappings. -/
structure State (n : Nat) where
  owner : Fin (n + 1)
  paused : Bool
  whitelist : Fin (n + 1) → Bool
  frozen : Fin (n + 1) → Bool
  vesting : Fin (n + 1) → Vesting
  balances : Fin (n + 1) → Nat
  totalSupply : Nat

/-- balanceOf(user) -/
def balanceOf {n : Nat} (s : State n) (user : Fin (n + 1)) : Nat :=
  s.balances user

/-- vestedAmount(user), written over the user's balance and Vesting record;
`now` is block.timestamp.  Branches in source order:
no schedule, before start, after end, linear interpolation. -/
def vestedAmountOf (bal : Nat) (v : Vesting) (now : Nat) : Nat :=
  if v.total = 0 then bal
  else if now < v.start then 0
  else if v.start + v.duration ≤ now then v.total
  else v.total * (now - v.start) / v.duration

/-- available(user), written over the user's balance and Vesting record. -/
def availableOf (bal : Nat) (v : Vesting) (now : Nat) : Nat :=
  if v.total = 0 then bal
  else
    let vested := vestedAmountOf bal v now
    if vested ≤ v.released then 0 else vested - v.released

/-- vestedAmount(user) on a state. -/
def vestedAmount {n : Nat} (s : State n) (user : Fin (n + 1)) (now : Nat) : Nat :=
  vestedAmountOf (balanceOf s user) (s.vesting user) now

/-- available(user) on a state. -/
def available {n : Nat} (s : State n) (user : Fin (n + 1)) (now : Nat) : Nat :=
  availableOf (balanceOf s user) (s.vesting user) now

/-- _beforeTokenTransfer.  The nested requires of the source are flattened
into one first-failure-wins chain that preserves their order: the
whenNotPaused modifier, then the sender-side block (frozen, whitelist,
vesting lock) guarded by from ≠ 0, then the receiver-side block (frozen,
whitelist) guarded by toAddr ≠ 0.  Returns the revert reason, if any. -/
def beforeTokenTransfer {n : Nat} (s : State n) (now : Nat)
    (fromAddr toAddr : Fin (n + 1)) (amount : Nat) : Option Err :=
  if s.paused then some .systemPaused
  else if fromAddr ≠ 0 ∧ s.frozen fromAddr = true then some .senderFrozen
  else if fromAddr ≠ 0 ∧ s.whitelist fromAddr = false then some .senderNotWhitelisted
  else if fromAddr ≠ 0 ∧ 0 < (s.vesting fromAddr).total ∧
      ¬ amount ≤ availableOf (s.balances fromAddr) (s.vesting fromAddr) now then
    some .amountLocked
  else if toAddr ≠ 0 ∧ s.frozen toAddr = true then some .receiverFrozen
  else if toAddr ≠ 0 ∧ s.whitelist toAddr = false then some .receiverNotWhitelisted
  else none

/-- _afterTokenTransfer: count tokens leaving fromAddr as released,
clamped so that released never exceeds total. -/
def afterTokenTransfer {n : Nat} (s : State n)
    (fromAddr _to : Fin (n + 1)) (amount : Nat) : State n :=
  if fromAddr ≠ 0 ∧ 0 < (s.vesting fromAddr).total then
    let v := s.vesting fromAddr
    let newReleased := if v.total < v.released + amount then v.total else v.released + amount
    let v' : Vesting := { v with released := newReleased }
    { s with vesting := Function.update s.vesting fromAddr v' }
  else s

/-- OpenZeppelin ERC20Upgradeable._mint: zero-address check, the before
hook, supply and balance increase, the after hook. -/
def erc20Mint {n : Nat} (s : State n) (now : Nat)
    (account : Fin (n + 1)) (amount : Nat) : Except Err (State n) :=
  if account = 0 then .error .mintToZero
  else
    match beforeTokenTransfer s now 0 account amount with
    | some e => .error e
    | none =>
      let s1 : State n :=
        { s with totalSupply := s.totalSupply + amount,
                 balances := Function.update s.balances account (s.balances account + amount) }
      .ok (afterTokenTransfer s1 0 account amount)

/-- OpenZeppelin ERC20Upgradeable._burn: zero-address check, the before
hook, balance check, supply and balance decrease, the after hook. -/
def erc20Burn {n : Nat} (s : State n) (now : Nat)
    (account : Fin (n + 1)) (amount : Nat) : Except Err (State n) :=
  if account = 0 then .error .burnFromZero
  else
    match beforeTokenTransfer s now account 0 amount with
    | some e => .error e
    | none =>
      if s.balances account < amount then .error .insufficientBalanceBurn
      else
        let s1 : State n :=
          { s with balances := Function.update s.balances account (s.balances account - amount),
                   totalSupply := s.totalSupply - amount }
        .ok (afterTokenTransfer s1 account 0 amount)

/-- OpenZeppelin ERC20Upgradeable._transfer: zero-address checks, the
before hook, balance check, the two sequential balance writes, the after
hook. -/
def erc20Transfer {n : Nat} (s : State n) (now : Nat)
    (fromAddr toAddr : Fin (n + 1)) (amount : Nat) : Except Err (State n) :=
  if fromAddr = 0 then .error .transferFromZero
  else if toAddr = 0 then .error .transferToZero
  else
    match beforeTokenTransfer s now fromAddr toAddr amount with
    | some e => .error e
    | none =>
      if s.balances fromAddr < amount then .error .insufficientBalanceTransfer
      else
        let b1 := Function.update s.balances fromAddr (s.balances fromAddr - amount)
        let b2 := Function.update b1 toAddr (b1 toAddr + amount)
        .ok (afterTokenTransfer { s with balances := b2 } fromAddr toAddr amount)

/-- addToWhitelist (onlyOwner). -/
def addToWhitelist {n : Nat} (s : State n) (caller user : Fin (n + 1)) :
    Except Err (State n) :=
  if caller ≠ s.owner then .error .unauthorized
  else .ok { s with whitelist := Function.update s.whitelist user true }

/-- removeFromWhitelist (onlyOwner). -/
def removeFromWhitelist {n : Nat} (s : State n) (caller user : Fin (n + 1)) :
    Except Err (State n) :=
  if caller ≠ s.owner then .error .unauthorized
  else .ok { s with whitelist := Function.update s.whitelist user false }

/-- freezeAddress (onlyOwner). -/
def freezeAddress {n : Nat} (s : State n) (caller user : Fin (n + 1)) :
    Except Err (State n) :=
  if caller ≠ s.owner then .error .unauthorized
  else .ok { s with frozen := Function.update s.frozen user true }

/-- unfreezeAddress (onlyOwner). -/
def unfreezeAddress {n : Nat} (s : State n) (caller user : Fin (n + 1)) :
    Except Err (State n) :=
  if caller ≠ s.owner then .error .unauthorized
  else .ok { s with frozen := Function.update s.frozen user false }

/-- pause (onlyOwner; OpenZeppelin _pause carries whenNotPaused). -/
def pause {n : Nat} (s : State n) (caller : Fin (n + 1)) : Except Err (State n) :=
  if caller ≠ s.owner then .error .unauthorized
  else if s.paused then .error .systemPaused
  else .ok { s with paused := true }

/-- unpause (onlyOwner; OpenZeppelin _unpause carries whenPaused). -/
def unpause {n : Nat} (s : State n) (caller : Fin (n + 1)) : Except Err (State n) :=
  if caller ≠ s.owner then .error .unauthorized
  else if s.paused = false then .error .notPaused
  else .ok { s with paused := false }

/-- mint (onlyOwner): recipient whitelist require, then _mint. -/
def mint {n : Nat} (s : State n) (caller : Fin (n + 1)) (now : Nat)
    (toAddr : Fin (n + 1)) (amount : Nat) : Except Err (State n) :=
  if caller ≠ s.owner then .error .unauthorized
  else if s.whitelist toAddr = false then .error .recipientNotWhitelisted
  else erc20Mint s now toAddr amount

/-- mintWithVesting (onlyOwner): recipient whitelist require, no-existing-
schedule require (total == 0 test), then _mint, then the schedule write. -/
def mintWithVesting {n : Nat} (s : State n) (caller : Fin (n + 1)) (now : Nat)
    (toAddr : Fin (n + 1)) (amount : Nat) (duration : Nat) : Except Err (State n) :=
  if caller ≠ s.owner then .error .unauthorized
  else if s.whitelist toAddr = false then .error .recipientNotWhitelisted
  else if (s.vesting toAddr).total ≠ 0 then .error .vestingAlreadyExists
  else
    match erc20Mint s now toAddr amount with
    | .error e => .error e
    | .ok s1 =>
      let sched : Vesting := { total := amount, released := 0, start := now, duration := duration }
      .ok { s1 with vesting := Function.update s1.vesting toAddr sched }

/-- burn (onlyOwner): delegates toAddr _burn. -/
def burn {n : Nat} (s : State n) (caller : Fin (n + 1)) (now : Nat)
    (fromAddr : Fin (n + 1)) (amount : Nat) : Except Err (State n) :=
  if caller ≠ s.owner then .error .unauthorized
  else erc20Burn s now fromAddr amount

/-- transfer (holder-initiated): ERC20Upgradeable.transfer with the caller
as sender. -/
def transfer {n : Nat} (s : State n) (caller : Fin (n + 1)) (now : Nat)
    (toAddr : Fin (n + 1)) (amount : Nat) : Except Err (State n) :=
  erc20Transfer s now caller toAddr amount

/-- The state produced by initialize(): the initializing caller is the
owner and is whitelisted; everything else is at its default. -/
def initState {n : Nat} (owner : Fin (n + 1)) : State n :=
  { owner := owner
    paused := false
    whitelist := Function.update (fun _ => false) owner true
    frozen := fun _ => false
    vesting := fun _ => { total := 0, released := 0, start := 0, duration := 0 }
    balances := fun _ => 0
    totalSupply := 0 }

/-- One engine operation, with its caller and (for the balance-changing
ones) the block timestamp at which it runs. -/
inductive Op (n : Nat) where
  | addToWhitelist (caller user : Fin (n + 1))
  | removeFromWhitelist (caller user : Fin (n + 1))
  | freezeAddress (caller user : Fin (n + 1))
  | unfreezeAddress (caller user : Fin (n + 1))
  | pause (caller : Fin (n + 1))
  | unpause (caller : Fin (n + 1))
  | mint (caller : Fin (n + 1)) (now : Nat) (toAddr : Fin (n + 1)) (amount : Nat)
  | mintWithVesting (caller : Fin (n + 1)) (now : Nat) (toAddr : Fin (n + 1))
      (amount : Nat) (duration : Nat)
  | burn (caller : Fin (n + 1)) (now : Nat) (fromAddr : Fin (n + 1)) (amount : Nat)
  | transfer (caller : Fin (n + 1)) (now : Nat) (toAddr : Fin (n + 1)) (amount : Nat)

/-- Dispatch one operation. -/
def applyOp {n : Nat} (s : State n) : Op n → Except Err (State n)
  | .addToWhitelist c u => addToWhitelist s c u
  | .removeFromWhitelist c u => removeFromWhitelist s c u
  | .freezeAddress c u => freezeAddress s c u
  | .unfreezeAddress c u => unfreezeAddress s c u
  | .pause c => pause s c
  | .unpause c => unpause s c
  | .mint c now toAddr a => mint s c now toAddr a
  | .mintWithVesting c now toAddr a d => mintWithVesting s c now toAddr a d
  | .burn c now f a => burn s c now f a
  | .transfer c now toAddr a => transfer s c now toAddr a

/-- A failed call reverts: the state is unchanged. -/
def step {n : Nat} (s : State n) (o : Op n) : State n :=
  match applyOp s o with
  | .ok s' => s'
  | .error _ => s

/-- Run a call sequence from a state. -/
def run {n : Nat} (s : State n) (ops : List (Op n)) : State n :=
  ops.foldl step s

/-- Units minted by one operation (zero when the call reverts). -/
def mintedOf {n : Nat} (s : State n) (o : Op n) : Nat :=
  match o with
  | .mint _ _ _ a =>
    match applyOp s o with
    | .ok _ => a
    | .error _ => 0
  | .mintWithVesting _ _ _ a _ =>
    match applyOp s o with
    | .ok _ => a
    | .error _ => 0
  | _ => 0

/-- Units burned by one operation (zero when the call reverts). -/
def burnedOf {n : Nat} (s : State n) (o : Op n) : Nat :=
  match o with
  | .burn _ _ _ a =>
    match applyOp s o with
    | .ok _ => a
    | .error _ => 0
  | _ => 0

/-- Run a call sequence while accumulating the units ever minted and ever
burned. -/
def runAcc {n : Nat} (s : State n) (minted burned : Nat) :
    List (Op n) → State n × Nat × Nat
  | [] => (s, minted, burned)
  | o :: ops => runAcc (step s o) (minted + mintedOf s o) (burned + burnedOf s o) ops

/-- Sum of all holder balances. -/
def sumBal {n : Nat} (s : State n) : Nat :=
  Finset.univ.sum s.balances

/-! ## Pure facts about the vesting arithmetic -/

/-- With a schedule present (total ≠ 0), vestedAmount ignores the balance. -/
theorem vestedAmountOf_bal_irrel (bal bal' : Nat) (v : Vesting) (now : Nat)
    (h : v.total ≠ 0) : vestedAmountOf bal v now = vestedAmountOf bal' v now := by
  unfold vestedAmountOf
  simp [h]

/-- With a schedule present, vestedAmount never exceeds total. -/
theorem vestedAmountOf_le_total (bal : Nat) (v : Vesting) (now : Nat)
    (h : v.total ≠ 0) : vestedAmountOf bal v now ≤ v.total := by
  unfold vestedAmountOf
  rw [if_neg h]
  by_cases hs : now < v.start
  · rw [if_pos hs]
    exact Nat.zero_le _
  · rw [if_neg hs]
    by_cases he : v.start + v.duration ≤ now
    · rw [if_pos he]
    · rw [if_neg he]
      have hd : 0 < v.duration := by omega
      calc v.total * (now - v.start) / v.duration
          ≤ v.total * v.duration / v.duration :=
            Nat.div_le_div_right (Nat.mul_le_mul_left _ (by omega))
        _ = v.total := Nat.mul_div_cancel _ hd

/-- C6: vestedAmount(holder, now) is the piecewise function: with no
schedule it returns the full current balance; before start it returns 0;
from start + duration on it returns total; strictly inside the window it
returns floor(total * (now - start) / duration); and (for duration > 0)
it is exactly 0 at now = start and exactly total at now = start + duration. -/
theorem vestedAmount_piecewise (bal : Nat) (v : Vesting) (now : Nat) :
    (v.total = 0 → vestedAmountOf bal v now = bal)
    ∧ (v.total ≠ 0 → now < v.start → vestedAmountOf bal v now = 0)
    ∧ (v.total ≠ 0 → v.start + v.duration ≤ now → vestedAmountOf bal v now = v.total)
    ∧ (v.total ≠ 0 → v.start ≤ now → now < v.start + v.duration →
        vestedAmountOf bal v now = v.total * (now - v.start) / v.duration)
    ∧ (v.total ≠ 0 → 0 < v.duration →
        vestedAmountOf bal v v.start = 0
        ∧ vestedAmountOf bal v (v.start + v.duration) = v.total) := by
  refine ⟨?_, ?_, ?_, ?_, ?_⟩
  · intro h
    simp [vestedAmountOf, h]
  · intro h hlt
    simp [vestedAmountOf, h, hlt]
  · intro h hge
    simp [vestedAmountOf, h, hge, show ¬ now < v.start by omega]
  · intro h hle hlt
    simp [vestedAmountOf, h, show ¬ now < v.start by omega,
      show ¬ v.start + v.duration ≤ now by omega]
  · intro h hd
    constructor
    · simp [vestedAmountOf, h, show ¬ v.start + v.duration ≤ v.start by omega]
    · simp [vestedAmountOf, h, show ¬ v.start + v.duration < v.start by omega]

/-- Witness for C6: a schedule of 100 over 50 seconds starting at 10,
queried at 30, is 40 percent vested; and at its start it is 0. -/
theorem vestedAmount_piecewise_witness :
    vestedAmountOf 7 (Vesting.mk 100 0 10 50) 30 = 100 * (30 - 10) / 50
    ∧ vestedAmountOf 7 (Vesting.mk 100 0 10 50) 10 = 0 :=
  ⟨(vestedAmount_piecewise 7 (Vesting.mk 100 0 10 50) 30).2.2.2.1
      (by decide) (by decide) (by decide),
    ((vestedAmount_piecewise 7 (Vesting.mk 100 0 10 50) 10).2.2.2.2
      (by decide) (by decide)).1⟩

/-- C8: for a fixed balance and fixed vesting record, vestedAmount is
monotone in the query time. -/
theorem vestedAmount_monotone (bal : Nat) (v : Vesting) (t1 t2 : Nat)
    (h : t1 ≤ t2) : vestedAmountOf bal v t1 ≤ vestedAmountOf bal v t2 := by
  unfold vestedAmountOf
  by_cases h0 : v.total = 0
  · simp [h0]
  · simp only [if_neg h0]
    by_cases hs1 : t1 < v.start
    · rw [if_pos hs1]
      exact Nat.zero_le _
    · rw [if_neg hs1, if_neg (show ¬ t2 < v.start by omega)]
      by_cases he1 : v.start + v.duration ≤ t1
      · rw [if_pos he1, if_pos (by omega)]
      · rw [if_neg he1]
        have hd : 0 < v.duration := by omega
        by_cases he2 : v.start + v.duration ≤ t2
        · rw [if_pos he2]
          calc v.total * (t1 - v.start) / v.duration
              ≤ v.total * v.duration / v.duration :=
                Nat.div_le_div_right (Nat.mul_le_mul_left _ (by omega))
            _ = v.total := Nat.mul_div_cancel _ hd
        · rw [if_neg he2]
          exact Nat.div_le_div_right (Nat.mul_le_mul_left _ (by omega))

/-- Witness for C8 at a mid-window pair of times. -/
theorem vestedAmount_monotone_witness :
    vestedAmountOf 5 (Vesting.mk 100 0 10 50) 20 ≤
      vestedAmountOf 5 (Vesting.mk 100 0 10 50) 40 :=
  vestedAmount_monotone 5 (Vesting.mk 100 0 10 50) 20 40 (by decide)

/-- C9: with a schedule present (total ≠ 0), available never exceeds
total, and it does not depend on the holder's current balance — so
tokens received by ordinary transfer cannot raise it. -/
theorem available_le_total (bal : Nat) (v : Vesting) (now : Nat)
    (h : v.total ≠ 0) :
    availableOf bal v now ≤ v.total
    ∧ ∀ bal', availableOf bal' v now = availableOf bal v now := by
  constructor
  · unfold availableOf
    rw [if_neg h]
    by_cases hr : vestedAmountOf bal v now ≤ v.released
    · simp only [hr, if_true]
      exact Nat.zero_le _
    · simp only [hr, if_false]
      exact Nat.le_trans (Nat.sub_le _ _) (vestedAmountOf_le_total bal v now h)
  · intro bal'
    unfold availableOf
    rw [if_neg h, if_neg h, vestedAmountOf_bal_irrel bal' bal v now h]

/-- Witness for C9: with 40 vested and 15 released, available is 25 ≤ 100,
and the answer is the same for a holder balance of 3 or of 7. -/
theorem available_le_total_witness :
    availableOf 7 (Vesting.mk 100 15 10 50) 30 ≤ 100
    ∧ availableOf 3 (Vesting.mk 100 15 10 50) 30 =
        availableOf 7 (Vesting.mk 100 15 10 50) 30 :=
  ⟨(available_le_total 7 (Vesting.mk 100 15 10 50) 30 (by decide)).1,
    (available_le_total 7 (Vesting.mk 100 15 10 50) 30 (by decide)).2 3⟩

/-- C10: a zero-duration schedule with total ≠ 0 is fully vested from
start on: the now ≥ start + duration branch fires (so the division is
never reached) and the query returns total. -/
theorem zero_duration_fully_vested (bal : Nat) (v : Vesting) (now : Nat)
    (hd : v.duration = 0) (ht : v.total ≠ 0) (hs : v.start ≤ now) :
    v.start + v.duration ≤ now ∧ vestedAmountOf bal v now = v.total := by
  refine ⟨by omega, ?_⟩
  simp [vestedAmountOf, ht, show ¬ now < v.start by omega,
    show v.start + v.duration ≤ now by omega]

/-- Witness for C10: a zero-duration schedule queried exactly at start. -/
theorem zero_duration_fully_vested_witness :
    (10 : Nat) + 0 ≤ 10 ∧ vestedAmountOf 4 (Vesting.mk 100 0 10 0) 10 = 100 :=
  zero_duration_fully_vested 4 (Vesting.mk 100 0 10 0) 10 rfl (by decide) (by decide)

/-! ## Shape lemmas for the settlement hook -/

/-- The after hook only touches the vesting mapping. -/
theorem afterTokenTransfer_balances {n : Nat} (s : State n)
    (fromAddr toAddr : Fin (n + 1)) (amount : Nat) :
    (afterTokenTransfer s fromAddr toAddr amount).balances = s.balances := by
  unfold afterTokenTransfer
  split <;> rfl

/-- The after hook leaves totalSupply unchanged. -/
theorem afterTokenTransfer_totalSupply {n : Nat} (s : State n)
    (fromAddr toAddr : Fin (n + 1)) (amount : Nat) :
    (afterTokenTransfer s fromAddr toAddr amount).totalSupply = s.totalSupply := by
  unfold afterTokenTransfer
  split <;> rfl

/-- On a mint (fromAddr = 0) the after hook is the identity. -/
theorem afterTokenTransfer_from_zero {n : Nat} (s : State n)
    (toAddr : Fin (n + 1)) (amount : Nat) :
    afterTokenTransfer s 0 toAddr amount = s := by
  unfold afterTokenTransfer
  rw [if_neg]
  simp

/-! ## Concrete states used by counterexamples and witnesses -/

/-- Owner 1; everyone whitelisted, nobody frozen, not paused; holder 2
holds 100 units all subject to a 100-second schedule started at time 0. -/
def lockedState : State 2 where
  owner := 1
  paused := false
  whitelist := fun _ => true
  frozen := fun _ => false
  vesting := fun a =>
    if a = 2 then { total := 100, released := 0, start := 0, duration := 100 }
    else { total := 0, released := 0, start := 0, duration := 0 }
  balances := fun a => if a = 2 then 100 else 0
  totalSupply := 100

/-- Owner 1; paused; only the owner is whitelisted; no balances. -/
def pausedState : State 2 where
  owner := 1
  paused := true
  whitelist := fun a => decide (a = 1)
  frozen := fun _ => false
  vesting := fun _ => { total := 0, released := 0, start := 0, duration := 0 }
  balances := fun _ => 0
  totalSupply := 0

/-- Owner 1; not paused; holder 2 is frozen and not whitelisted and holds
10 unvested-free units. -/
def frozenState : State 2 where
  owner := 1
  paused := false
  whitelist := fun a => decide (a = 1)
  frozen := fun a => decide (a = 2)
  vesting := fun _ => { total := 0, released := 0, start := 0, duration := 0 }
  balances := fun a => if a = 2 then 10 else 0
  totalSupply := 10

/-! ## C1: does the owner-only burn bypass the vesting lock? -/

/-- C1 counterexample: holder 2 passes the whitelist and freeze checks,
the system is not paused, its balance (100) covers the amount (50), yet
at time 0 nothing is vested and the owner's burn reverts with
"Amount locked" instead of succeeding. -/
theorem burn_locked_counterexample :
    lockedState.balances 2 = 100
    ∧ available lockedState 2 0 = 0
    ∧ burn lockedState 1 0 2 50 = .error Err.amountLocked := by
  refine ⟨rfl, rfl, rfl⟩

/-- C1 amended: the owner-only burn IS gated by available(): for a vesting
holder passing the whitelist and freeze checks while not paused, a burn of
more than the available amount fails with AmountLocked, and a burn within
the available amount (and within the balance) succeeds, decreasing the
holder balance and totalSupply. -/
theorem burn_gated_by_available {n : Nat} (s : State n) (now : Nat)
    (fromAddr : Fin (n + 1)) (amount : Nat)
    (hp : s.paused = false) (h0 : fromAddr ≠ 0)
    (hf : s.frozen fromAddr = false) (hw : s.whitelist fromAddr = true)
    (hv : 0 < (s.vesting fromAddr).total) :
    (available s fromAddr now < amount →
      burn s s.owner now fromAddr amount = .error .amountLocked)
    ∧ (amount ≤ available s fromAddr now → amount ≤ s.balances fromAddr →
      ∃ s', burn s s.owner now fromAddr amount = .ok s'
        ∧ s'.balances fromAddr = s.balances fromAddr - amount
        ∧ s'.totalSupply = s.totalSupply - amount) := by
  constructor
  · intro hlt
    have hb : beforeTokenTransfer s now fromAddr 0 amount = some .amountLocked := by
      simp [beforeTokenTransfer, hp, hf, hw, h0, hv]
      simpa [available, balanceOf] using hlt
    simp [burn, erc20Burn, h0, hb]
  · intro hle hbal
    have hb : beforeTokenTransfer s now fromAddr 0 amount = none := by
      have hna : amount ≤ availableOf (s.balances fromAddr) (s.vesting fromAddr) now := by
        simpa [available, balanceOf] using hle
      simp [beforeTokenTransfer, hp, hf, hw, hna]
    refine ⟨afterTokenTransfer
      { s with balances := Function.update s.balances fromAddr (s.balances fromAddr - amount),
               totalSupply := s.totalSupply - amount } fromAddr 0 amount, ?_, ?_, ?_⟩
    · simp [burn, erc20Burn, h0, hb, Nat.not_lt.mpr hbal]
    · rw [afterTokenTransfer_balances]
      simp
    · rw [afterTokenTransfer_totalSupply]

/-- Witness for the amended C1: at time 0 burning 50 locked units fails,
at time 200 (fully vested) it succeeds and debits balance and supply. -/
theorem burn_gated_by_available_witness :
    burn lockedState 1 0 2 50 = .error Err.amountLocked
    ∧ ∃ s', burn lockedState 1 200 2 50 = .ok s'
        ∧ s'.balances 2 = 100 - 50 ∧ s'.totalSupply = 100 - 50 :=
  ⟨(burn_gated_by_available lockedState 0 2 50 rfl (by decide) rfl rfl
      (by decide)).1 (by decide),
   (burn_gated_by_available lockedState 200 2 50 rfl (by decide) rfl rfl
      (by decide)).2 (by decide) (by decide)⟩

/-! ## C2: gating while paused -/

/-- C2 counterexample: while paused, a mint to a non-whitelisted recipient
fails with the mint wrapper's "Not whitelisted", not with SystemPaused —
the recipient whitelist require in mint runs before the whenNotPaused
check inside _beforeTokenTransfer. -/
theorem mint_paused_counterexample :
    pausedState.paused = true
    ∧ pausedState.whitelist 2 = false
    ∧ mint pausedState 1 5 2 7 = .error Err.recipientNotWhitelisted
    ∧ mint pausedState 1 5 2 7 ≠ .error Err.systemPaused := by
  refine ⟨rfl, rfl, rfl, ?_⟩
  intro h
  exact absurd (Except.error.inj h) (by decide)

/-- C2 amended: while paused, burn and transfer (between non-null
addresses) fail with SystemPaused before any other check, and mint fails
with SystemPaused when the recipient is whitelisted; but mint's own
recipient-whitelist require runs first, so a paused mint to a
non-whitelisted recipient fails NotWhitelisted instead.  Whitelist and
freeze administration and unpause remain permitted while paused. -/
theorem paused_gating {n : Nat} (s : State n) (now : Nat)
    (u toAddr fromAddr : Fin (n + 1)) (amount : Nat) (hp : s.paused = true) :
    (toAddr ≠ 0 → s.whitelist toAddr = true →
      mint s s.owner now toAddr amount = .error .systemPaused)
    ∧ (s.whitelist toAddr = false →
      mint s s.owner now toAddr amount = .error .recipientNotWhitelisted)
    ∧ (fromAddr ≠ 0 → burn s s.owner now fromAddr amount = .error .systemPaused)
    ∧ (fromAddr ≠ 0 → toAddr ≠ 0 →
      transfer s fromAddr now toAddr amount = .error .systemPaused)
    ∧ (∃ s', addToWhitelist s s.owner u = .ok s')
    ∧ (∃ s', removeFromWhitelist s s.owner u = .ok s')
    ∧ (∃ s', freezeAddress s s.owner u = .ok s')
    ∧ (∃ s', unfreezeAddress s s.owner u = .ok s')
    ∧ unpause s s.owner = .ok { s with paused := false } := by
  refine ⟨?_, ?_, ?_, ?_, ?_, ?_, ?_, ?_, ?_⟩
  · intro h0 hw
    simp [mint, erc20Mint, beforeTokenTransfer, hp, hw, h0]
  · intro hw
    simp [mint, hw]
  · intro h0
    simp [burn, erc20Burn, beforeTokenTransfer, hp, h0]
  · intro h0 ht0
    simp [transfer, erc20Transfer, beforeTokenTransfer, hp, h0, ht0]
  · exact ⟨{ s with whitelist := Function.update s.whitelist u true }, by simp [addToWhitelist]⟩
  · exact ⟨{ s with whitelist := Function.update s.whitelist u false }, by simp [removeFromWhitelist]⟩
  · exact ⟨{ s with frozen := Function.update s.frozen u true }, by simp [freezeAddress]⟩
  · exact ⟨{ s with frozen := Function.update s.frozen u false }, by simp [unfreezeAddress]⟩
  · simp [unpause, hp]

/-- Witness for the amended C2 on the concrete paused state. -/
theorem paused_gating_witness :
    mint pausedState 1 5 1 7 = .error Err.systemPaused
    ∧ mint pausedState 1 5 2 7 = .error Err.recipientNotWhitelisted
    ∧ burn pausedState 1 5 1 3 = .error Err.systemPaused
    ∧ transfer pausedState 2 5 1 3 = .error Err.systemPaused
    ∧ unpause pausedState 1 = .ok { pausedState with paused := false } :=
  ⟨(paused_gating pausedState 5 2 1 2 7 rfl).1 (by decide) rfl,
   (paused_gating pausedState 5 2 2 2 7 rfl).2.1 rfl,
   (paused_gating pausedState 5 2 1 1 3 rfl).2.2.1 (by decide),
   (paused_gating pausedState 5 2 1 2 3 rfl).2.2.2.1 (by decide) (by decide),
   (paused_gating pausedState 5 2 1 2 3 rfl).2.2.2.2.2.2.2.2⟩

/-! ## C3: order of the sender-side checks -/

/-- C3 counterexample: holder 2 is both frozen and not whitelisted; the
reported failure of its transfer is "Sender frozen" (AddressFrozen), not
NotWhitelisted — the freeze require runs before the whitelist require. -/
theorem frozen_not_whitelisted_counterexample :
    frozenState.frozen 2 = true
    ∧ frozenState.whitelist 2 = false
    ∧ transfer frozenState 2 0 1 5 = .error Err.senderFrozen
    ∧ transfer frozenState 2 0 1 5 ≠ .error Err.senderNotWhitelisted := by
  refine ⟨rfl, rfl, rfl, ?_⟩
  intro h
  exact absurd (Except.error.inj h) (by decide)

/-- C3 amended: the sender-side checks run in the order freeze first, then
whitelist, then (if a schedule is present) the lock check — so a frozen
sender always reports AddressFrozen (whatever its whitelist or vesting
state, in particular a frozen, whitelisted, non-vesting sender with the
amount fully available), and NotWhitelisted is reported only for
non-frozen senders. -/
theorem sender_gate_order {n : Nat} (s : State n) (now : Nat)
    (caller toAddr : Fin (n + 1)) (amount : Nat)
    (hp : s.paused = false) (h0 : caller ≠ 0) (ht0 : toAddr ≠ 0) :
    (s.frozen caller = true →
      transfer s caller now toAddr amount = .error .senderFrozen)
    ∧ (s.frozen caller = false → s.whitelist caller = false →
      transfer s caller now toAddr amount = .error .senderNotWhitelisted)
    ∧ (s.frozen caller = false → s.whitelist caller = true →
      0 < (s.vesting caller).total → available s caller now < amount →
      transfer s caller now toAddr amount = .error .amountLocked) := by
  refine ⟨?_, ?_, ?_⟩
  · intro hf
    simp [transfer, erc20Transfer, beforeTokenTransfer, hp, h0, ht0, hf]
  · intro hf hw
    simp [transfer, erc20Transfer, beforeTokenTransfer, hp, h0, ht0, hf, hw]
  · intro hf hw hv hlt
    have hna : ¬ amount ≤ availableOf (s.balances caller) (s.vesting caller) now := by
      simp only [available, balanceOf] at hlt
      omega
    simp [transfer, erc20Transfer, beforeTokenTransfer, hp, h0, ht0, hf, hw, hv, hna]

/-- Witness for the amended C3: the frozen, non-whitelisted holder 2
reports AddressFrozen. -/
theorem sender_gate_order_witness :
    transfer frozenState 2 0 1 5 = .error Err.senderFrozen :=
  (sender_gate_order frozenState 0 2 1 5 rfl (by decide) (by decide)).1 rfl

/-! ## C7: no second vesting schedule -/

/-- C7: a mintWithVesting call to a holder that already has a schedule
(total ≠ 0) fails with VestingAlreadyExists (when the owner calls it for a
whitelisted holder, the only way the existence check is reached), and the
operation is all-or-nothing: whatever the caller and flags, the call
reverts and the entire state — balance, schedule, totalSupply — is
unchanged. -/
theorem mintWithVesting_no_double {n : Nat} (s : State n)
    (caller : Fin (n + 1)) (now : Nat) (toAddr : Fin (n + 1))
    (amount duration : Nat) (hv : (s.vesting toAddr).total ≠ 0) :
    (caller = s.owner → s.whitelist toAddr = true →
      mintWithVesting s caller now toAddr amount duration = .error .vestingAlreadyExists)
    ∧ step s (Op.mintWithVesting caller now toAddr amount duration) = s := by
  constructor
  · intro hc hw
    simp [mintWithVesting, hc, hw, hv]
  · by_cases hc : caller = s.owner
    · by_cases hw : s.whitelist toAddr = false
      · simp [step, applyOp, mintWithVesting, hc, hw]
      · simp [step, applyOp, mintWithVesting, hc, hw, hv]
    · simp [step, applyOp, mintWithVesting, hc]

/-- Witness for C7: a second vesting mint to holder 2 of lockedState
fails and leaves the state untouched. -/
theorem mintWithVesting_no_double_witness :
    mintWithVesting lockedState 1 5 2 40 10 = .error Err.vestingAlreadyExists
    ∧ step lockedState (Op.mintWithVesting 1 5 2 40 10) = lockedState :=
  ⟨(mintWithVesting_no_double lockedState 1 5 2 40 10 (by decide)).1 rfl rfl,
   (mintWithVesting_no_double lockedState 1 5 2 40 10 (by decide)).2⟩

/-! ## Sum bookkeeping helpers -/

/-- Raising one entry of a finite map by amt raises its sum by amt. -/
theorem sum_update_add {k : Nat} (f : Fin k → Nat) (a : Fin k) (amt : Nat) :
    Finset.univ.sum (Function.update f a (f a + amt)) = Finset.univ.sum f + amt := by
  rw [Finset.sum_update_of_mem (Finset.mem_univ a), ← Finset.erase_eq,
    ← Finset.add_sum_erase Finset.univ f (Finset.mem_univ a)]
  omega

/-- Lowering one entry of a finite map by amt ≤ its value lowers the sum
by amt. -/
theorem sum_update_sub {k : Nat} (f : Fin k → Nat) (a : Fin k) (amt : Nat)
    (h : amt ≤ f a) :
    Finset.univ.sum (Function.update f a (f a - amt)) = Finset.univ.sum f - amt := by
  rw [Finset.sum_update_of_mem (Finset.mem_univ a), ← Finset.erase_eq,
    ← Finset.add_sum_erase Finset.univ f (Finset.mem_univ a)]
  omega

/-- Every entry is at most the sum. -/
theorem entry_le_sum {k : Nat} (f : Fin k → Nat) (a : Fin k) :
    f a ≤ Finset.univ.sum f :=
  Finset.single_le_sum (fun i _ => Nat.zero_le (f i)) (Finset.mem_univ a)

/-! ## Success shapes of the ERC20 internals and the public operations -/

/-- A successful _mint adds amount to the supply and to the account's
balance, and changes nothing else (the after hook is the identity there). -/
theorem erc20Mint_ok {n : Nat} {s : State n} {now : Nat}
    {account : Fin (n + 1)} {amount : Nat} {s' : State n}
    (h : erc20Mint s now account amount = .ok s') :
    s' = { s with totalSupply := s.totalSupply + amount,
                  balances := Function.update s.balances account (s.balances account + amount) } := by
  unfold erc20Mint at h
  by_cases h0 : account = 0
  · rw [if_pos h0] at h
    exact absurd h (by simp)
  · rw [if_neg h0] at h
    cases hb : beforeTokenTransfer s now 0 account amount with
    | some e =>
      rw [hb] at h
      exact absurd h (by simp)
    | none =>
      rw [hb] at h
      simp only [Except.ok.injEq] at h
      rw [afterTokenTransfer_from_zero] at h
      exact h.symm

/-- A successful _burn requires amount ≤ balance and produces the after
hook applied to the debited state. -/
theorem erc20Burn_ok {n : Nat} {s : State n} {now : Nat}
    {account : Fin (n + 1)} {amount : Nat} {s' : State n}
    (h : erc20Burn s now account amount = .ok s') :
    amount ≤ s.balances account
    ∧ s' = afterTokenTransfer
        { s with balances := Function.update s.balances account (s.balances account - amount),
                 totalSupply := s.totalSupply - amount } account 0 amount := by
  unfold erc20Burn at h
  by_cases h0 : account = 0
  · rw [if_pos h0] at h
    exact absurd h (by simp)
  · rw [if_neg h0] at h
    cases hb : beforeTokenTransfer s now account 0 amount with
    | some e =>
      rw [hb] at h
      exact absurd h (by simp)
    | none =>
      rw [hb] at h
      by_cases hbal : s.balances account < amount
      · rw [if_pos hbal] at h
        exact absurd h (by simp)
      · rw [if_neg hbal] at h
        simp only [Except.ok.injEq] at h
        exact ⟨by omega, h.symm⟩

/-- A successful _transfer requires amount ≤ the sender balance and
produces the after hook applied to the state with the two sequential
balance writes. -/
theorem erc20Transfer_ok {n : Nat} {s : State n} {now : Nat}
    {fromAddr toAddr : Fin (n + 1)} {amount : Nat} {s' : State n}
    (h : erc20Transfer s now fromAddr toAddr amount = .ok s') :
    amount ≤ s.balances fromAddr
    ∧ s' = afterTokenTransfer
        { s with balances := Function.update (Function.update s.balances fromAddr (s.balances fromAddr - amount)) toAddr ((Function.update s.balances fromAddr (s.balances fromAddr - amount)) toAddr + amount) }
        fromAddr toAddr amount := by
  unfold erc20Transfer at h
  by_cases h0 : fromAddr = 0
  · rw [if_pos h0] at h
    exact absurd h (by simp)
  · rw [if_neg h0] at h
    by_cases ht0 : toAddr = 0
    · rw [if_pos ht0] at h
      exact absurd h (by simp)
    · rw [if_neg ht0] at h
      cases hb : beforeTokenTransfer s now fromAddr toAddr amount with
      | some e =>
        rw [hb] at h
        exact absurd h (by simp)
      | none =>
        rw [hb] at h
        by_cases hbal : s.balances fromAddr < amount
        · rw [if_pos hbal] at h
          exact absurd h (by simp)
        · rw [if_neg hbal] at h
          simp only [Except.ok.injEq] at h
          exact ⟨by omega, h.symm⟩

/-- A successful mint is a successful _mint. -/
theorem mint_ok {n : Nat} {s : State n} {c : Fin (n + 1)} {now : Nat}
    {toAddr : Fin (n + 1)} {amount : Nat} {s' : State n}
    (h : mint s c now toAddr amount = .ok s') :
    erc20Mint s now toAddr amount = .ok s' := by
  unfold mint at h
  split at h
  · exact absurd h (by simp)
  · split at h
    · exact absurd h (by simp)
    · exact h

/-- A successful mintWithVesting is a successful _mint followed by the
schedule write, and only happens when no schedule was present. -/
theorem mintWithVesting_ok {n : Nat} {s : State n} {c : Fin (n + 1)}
    {now : Nat} {toAddr : Fin (n + 1)} {amount duration : Nat} {s' : State n}
    (h : mintWithVesting s c now toAddr amount duration = .ok s') :
    (s.vesting toAddr).total = 0
    ∧ ∃ s1, erc20Mint s now toAddr amount = .ok s1
        ∧ s' = { s1 with vesting := Function.update s1.vesting toAddr (Vesting.mk amount 0 now duration) } := by
  unfold mintWithVesting at h
  split at h
  · exact absurd h (by simp)
  · split at h
    · exact absurd h (by simp)
    · split at h
      · exact absurd h (by simp)
      · rename_i hv
        cases hm : erc20Mint s now toAddr amount with
        | error e =>
          rw [hm] at h
          exact absurd h (by simp)
        | ok s1 =>
          rw [hm] at h
          simp only [Except.ok.injEq] at h
          exact ⟨by omega, s1, rfl, h.symm⟩

/-- A successful burn is a successful _burn. -/
theorem burn_ok {n : Nat} {s : State n} {c : Fin (n + 1)} {now : Nat}
    {fromAddr : Fin (n + 1)} {amount : Nat} {s' : State n}
    (h : burn s c now fromAddr amount = .ok s') :
    erc20Burn s now fromAddr amount = .ok s' := by
  unfold burn at h
  split at h
  · exact absurd h (by simp)
  · exact h

/-- Success shape of addToWhitelist. -/
theorem addToWhitelist_ok {n : Nat} {s : State n} {c u : Fin (n + 1)}
    {s' : State n} (h : addToWhitelist s c u = .ok s') :
    s' = { s with whitelist := Function.update s.whitelist u true } := by
  unfold addToWhitelist at h
  split at h
  · exact absurd h (by simp)
  · simp only [Except.ok.injEq] at h
    exact h.symm

/-- Success shape of removeFromWhitelist. -/
theorem removeFromWhitelist_ok {n : Nat} {s : State n} {c u : Fin (n + 1)}
    {s' : State n} (h : removeFromWhitelist s c u = .ok s') :
    s' = { s with whitelist := Function.update s.whitelist u false } := by
  unfold removeFromWhitelist at h
  split at h
  · exact absurd h (by simp)
  · simp only [Except.ok.injEq] at h
    exact h.symm

/-- Success shape of freezeAddress. -/
theorem freezeAddress_ok {n : Nat} {s : State n} {c u : Fin (n + 1)}
    {s' : State n} (h : freezeAddress s c u = .ok s') :
    s' = { s with frozen := Function.update s.frozen u true } := by
  unfold freezeAddress at h
  split at h
  · exact absurd h (by simp)
  · simp only [Except.ok.injEq] at h
    exact h.symm

/-- Success shape of unfreezeAddress. -/
theorem unfreezeAddress_ok {n : Nat} {s : State n} {c u : Fin (n + 1)}
    {s' : State n} (h : unfreezeAddress s c u = .ok s') :
    s' = { s with frozen := Function.update s.frozen u false } := by
  unfold unfreezeAddress at h
  split at h
  · exact absurd h (by simp)
  · simp only [Except.ok.injEq] at h
    exact h.symm

/-- Success shape of pause. -/
theorem pause_ok {n : Nat} {s : State n} {c : Fin (n + 1)}
    {s' : State n} (h : pause s c = .ok s') :
    s' = { s with paused := true } := by
  unfold pause at h
  split at h
  · exact absurd h (by simp)
  · split at h
    · exact absurd h (by simp)
    · simp only [Except.ok.injEq] at h
      exact h.symm

/-- Success shape of unpause. -/
theorem unpause_ok {n : Nat} {s : State n} {c : Fin (n + 1)}
    {s' : State n} (h : unpause s c = .ok s') :
    s' = { s with paused := false } := by
  unfold unpause at h
  split at h
  · exact absurd h (by simp)
  · split at h
    · exact absurd h (by simp)
    · simp only [Except.ok.injEq] at h
      exact h.symm

/-- One step preserves supply = sum-of-balances, and changes the supply by
exactly the units the step minted minus the units it burned. -/
theorem step_supplyInv {n : Nat} (s : State n) (o : Op n)
    (h : s.totalSupply = sumBal s) :
    (step s o).totalSupply = sumBal (step s o)
    ∧ (step s o).totalSupply + burnedOf s o = s.totalSupply + mintedOf s o := by
  cases o with
  | addToWhitelist c u =>
    simp only [step, applyOp, mintedOf, burnedOf]
    cases happ : addToWhitelist s c u with
    | error e => exact ⟨h, rfl⟩
    | ok s' =>
      obtain rfl := addToWhitelist_ok happ
      exact ⟨h, rfl⟩
  | removeFromWhitelist c u =>
    simp only [step, applyOp, mintedOf, burnedOf]
    cases happ : removeFromWhitelist s c u with
    | error e => exact ⟨h, rfl⟩
    | ok s' =>
      obtain rfl := removeFromWhitelist_ok happ
      exact ⟨h, rfl⟩
  | freezeAddress c u =>
    simp only [step, applyOp, mintedOf, burnedOf]
    cases happ : freezeAddress s c u with
    | error e => exact ⟨h, rfl⟩
    | ok s' =>
      obtain rfl := freezeAddress_ok happ
      exact ⟨h, rfl⟩
  | unfreezeAddress c u =>
    simp only [step, applyOp, mintedOf, burnedOf]
    cases happ : unfreezeAddress s c u with
    | error e => exact ⟨h, rfl⟩
    | ok s' =>
      obtain rfl := unfreezeAddress_ok happ
      exact ⟨h, rfl⟩
  | pause c =>
    simp only [step, applyOp, mintedOf, burnedOf]
    cases happ : pause s c with
    | error e => exact ⟨h, rfl⟩
    | ok s' =>
      obtain rfl := pause_ok happ
      exact ⟨h, rfl⟩
  | unpause c =>
    simp only [step, applyOp, mintedOf, burnedOf]
    cases happ : unpause s c with
    | error e => exact ⟨h, rfl⟩
    | ok s' =>
      obtain rfl := unpause_ok happ
      exact ⟨h, rfl⟩
  | mint c now t amt =>
    simp only [step, applyOp, mintedOf, burnedOf]
    cases happ : mint s c now t amt with
    | error e => exact ⟨h, rfl⟩
    | ok s' =>
      obtain rfl := erc20Mint_ok (mint_ok happ)
      dsimp only
      constructor
      · simp only [sumBal] at h ⊢
        rw [sum_update_add]
        omega
      · simp only [sumBal] at h
        omega
  | mintWithVesting c now t amt d =>
    simp only [step, applyOp, mintedOf, burnedOf]
    cases happ : mintWithVesting s c now t amt d with
    | error e => exact ⟨h, rfl⟩
    | ok s' =>
      obtain ⟨hv0, s1, hm, rfl⟩ := mintWithVesting_ok happ
      obtain rfl := erc20Mint_ok hm
      dsimp only
      constructor
      · simp only [sumBal] at h ⊢
        rw [sum_update_add]
        omega
      · simp only [sumBal] at h
        omega
  | burn c now f amt =>
    simp only [step, applyOp, mintedOf, burnedOf]
    cases happ : burn s c now f amt with
    | error e => exact ⟨h, rfl⟩
    | ok s' =>
      obtain ⟨hle, rfl⟩ := erc20Burn_ok (burn_ok happ)
      have hfa := entry_le_sum s.balances f
      constructor
      · simp only [sumBal, afterTokenTransfer_totalSupply, afterTokenTransfer_balances] at h ⊢
        rw [sum_update_sub _ _ _ hle]
        omega
      · simp only [sumBal] at h
        simp only [afterTokenTransfer_totalSupply]
        omega
  | transfer c now t amt =>
    simp only [step, applyOp, mintedOf, burnedOf]
    cases happ : transfer s c now t amt with
    | error e => exact ⟨h, rfl⟩
    | ok s' =>
      have happ' : erc20Transfer s now c t amt = .ok s' := happ
      obtain ⟨hle, rfl⟩ := erc20Transfer_ok happ'
      have hfa := entry_le_sum s.balances c
      constructor
      · simp only [sumBal, afterTokenTransfer_totalSupply, afterTokenTransfer_balances] at h ⊢
        rw [sum_update_add, sum_update_sub _ _ _ hle]
        omega
      · simp only [afterTokenTransfer_totalSupply]

/-- The fold of step_supplyInv over a call sequence. -/
theorem runAcc_supplyInv {n : Nat} :
    ∀ (ops : List (Op n)) (s : State n) (m b : Nat),
      s.totalSupply = sumBal s → s.totalSupply + b = m →
      (runAcc s m b ops).1.totalSupply = sumBal (runAcc s m b ops).1
      ∧ (runAcc s m b ops).1.totalSupply + (runAcc s m b ops).2.2
          = (runAcc s m b ops).2.1 := by
  intro ops
  induction ops with
  | nil =>
    intro s m b h1 h2
    exact ⟨h1, h2⟩
  | cons o ops ih =>
    intro s m b h1 h2
    simp only [runAcc]
    refine ih _ _ _ (step_supplyInv s o h1).1 ?_
    have := (step_supplyInv s o h1).2
    omega

/-- C4: in every state reachable from initialization by any call
sequence, totalSupply equals the sum of all holder balances and equals
the units ever minted minus the units ever burned (with burned ≤ minted,
stated additively as supply + burned = minted as well). -/
theorem totalSupply_conservation {n : Nat} (owner : Fin (n + 1))
    (ops : List (Op n)) :
    (runAcc (initState owner) 0 0 ops).1.totalSupply
        = sumBal (runAcc (initState owner) 0 0 ops).1
    ∧ (runAcc (initState owner) 0 0 ops).1.totalSupply
          + (runAcc (initState owner) 0 0 ops).2.2
        = (runAcc (initState owner) 0 0 ops).2.1
    ∧ (runAcc (initState owner) 0 0 ops).1.totalSupply
        = (runAcc (initState owner) 0 0 ops).2.1
            - (runAcc (initState owner) 0 0 ops).2.2 := by
  have h0 : (initState (n := n) owner).totalSupply = sumBal (initState owner) := by
    simp [initState, sumBal]
  have h := runAcc_supplyInv ops (initState owner) 0 0 h0 rfl
  exact ⟨h.1, h.2, by omega⟩

/-- released ≤ total for every holder. -/
def ReleasedInv {n : Nat} (s : State n) : Prop :=
  ∀ a, (s.vesting a).released ≤ (s.vesting a).total

/-- The after hook preserves released ≤ total: the entry it writes is
clamped, every other entry is untouched. -/
theorem afterTokenTransfer_releasedInv {n : Nat} (s : State n)
    (fromAddr toAddr : Fin (n + 1)) (amount : Nat) (h : ReleasedInv s) :
    ReleasedInv (afterTokenTransfer s fromAddr toAddr amount) := by
  intro a
  unfold afterTokenTransfer
  split
  · by_cases ha : a = fromAddr
    · subst ha
      simp only [Function.update_same]
      split <;> omega
    · simp only [Function.update_noteq ha]
      exact h a
  · exact h a

/-- One step preserves released ≤ total. -/
theorem step_releasedInv {n : Nat} (s : State n) (o : Op n)
    (h : ReleasedInv s) : ReleasedInv (step s o) := by
  cases o with
  | addToWhitelist c u =>
    simp only [step, applyOp]
    cases happ : addToWhitelist s c u with
    | error e => exact h
    | ok s' =>
      obtain rfl := addToWhitelist_ok happ
      exact h
  | removeFromWhitelist c u =>
    simp only [step, applyOp]
    cases happ : removeFromWhitelist s c u with
    | error e => exact h
    | ok s' =>
      obtain rfl := removeFromWhitelist_ok happ
      exact h
  | freezeAddress c u =>
    simp only [step, applyOp]
    cases happ : freezeAddress s c u with
    | error e => exact h
    | ok s' =>
      obtain rfl := freezeAddress_ok happ
      exact h
  | unfreezeAddress c u =>
    simp only [step, applyOp]
    cases happ : unfreezeAddress s c u with
    | error e => exact h
    | ok s' =>
      obtain rfl := unfreezeAddress_ok happ
      exact h
  | pause c =>
    simp only [step, applyOp]
    cases happ : pause s c with
    | error e => exact h
    | ok s' =>
      obtain rfl := pause_ok happ
      exact h
  | unpause c =>
    simp only [step, applyOp]
    cases happ : unpause s c with
    | error e => exact h
    | ok s' =>
      obtain rfl := unpause_ok happ
      exact h
  | mint c now t amt =>
    simp only [step, applyOp]
    cases happ : mint s c now t amt with
    | error e => exact h
    | ok s' =>
      obtain rfl := erc20Mint_ok (mint_ok happ)
      exact h
  | mintWithVesting c now t amt d =>
    simp only [step, applyOp]
    cases happ : mintWithVesting s c now t amt d with
    | error e => exact h
    | ok s' =>
      obtain ⟨hv0, s1, hm, rfl⟩ := mintWithVesting_ok happ
      obtain rfl := erc20Mint_ok hm
      intro a
      by_cases ha : a = t
      · subst ha
        simp only [Function.update_same]
        exact Nat.zero_le _
      · simp only [Function.update_noteq ha]
        exact h a
  | burn c now f amt =>
    simp only [step, applyOp]
    cases happ : burn s c now f amt with
    | error e => exact h
    | ok s' =>
      obtain ⟨hle, rfl⟩ := erc20Burn_ok (burn_ok happ)
      exact afterTokenTransfer_releasedInv _ _ _ _ (fun a => h a)
  | transfer c now t amt =>
    simp only [step, applyOp]
    cases happ : transfer s c now t amt with
    | error e => exact h
    | ok s' =>
      have happ' : erc20Transfer s now c t amt = .ok s' := happ
      obtain ⟨hle, rfl⟩ := erc20Transfer_ok happ'
      exact afterTokenTransfer_releasedInv _ _ _ _ (fun a => h a)

/-- The fold of step_releasedInv over a call sequence. -/
theorem run_releasedInv {n : Nat} :
    ∀ (ops : List (Op n)) (s : State n), ReleasedInv s → ReleasedInv (run s ops) := by
  intro ops
  induction ops with
  | nil =>
    intro s h
    exact h
  | cons o ops ih =>
    intro s h
    exact ih _ (step_releasedInv s o h)

/-- C5: in every reachable state, released ≤ total for every holder; the
settlement hook (run after transfer-out and burn) increments released
clamped to total rather than erroring; and a plain mint-in leaves every
vesting record (in particular released) unchanged. -/
theorem released_le_total_inv {n : Nat} (owner : Fin (n + 1))
    (ops : List (Op n)) (s : State n) (fromAddr toAddr : Fin (n + 1))
    (amount : Nat) (a : Fin (n + 1)) :
    (((run (initState owner) ops).vesting a).released
        ≤ ((run (initState owner) ops).vesting a).total)
    ∧ (fromAddr ≠ 0 → 0 < (s.vesting fromAddr).total →
        ((afterTokenTransfer s fromAddr toAddr amount).vesting fromAddr).released
          = min ((s.vesting fromAddr).released + amount) (s.vesting fromAddr).total)
    ∧ (∀ c now t amt s', mint s c now t amt = .ok s' → s'.vesting = s.vesting) := by
  refine ⟨?_, ?_, ?_⟩
  · exact run_releasedInv ops (initState owner)
      (fun x => Nat.le_refl 0) a
  · intro h0 hv
    unfold afterTokenTransfer
    rw [if_pos ⟨h0, hv⟩]
    simp only [Function.update_same]
    rw [Nat.min_def]
    split <;> split <;> omega
  · intro c now t amt s' hok
    obtain rfl := erc20Mint_ok (mint_ok hok)
    rfl

/-- The state after the witness mint below: holder 1 gains 5 units. -/
def mintedLockedState : State 2 :=
  { lockedState with totalSupply := lockedState.totalSupply + 5,
                     balances := Function.update lockedState.balances 1 (lockedState.balances 1 + 5) }

/-- Witness for C5: the empty trace satisfies the invariant, the hook
clamps concretely, and a concrete successful mint keeps vesting intact. -/
theorem released_le_total_inv_witness :
    (((run (initState (1 : Fin 3)) []).vesting 2).released
        ≤ ((run (initState (1 : Fin 3)) []).vesting 2).total)
    ∧ ((afterTokenTransfer lockedState 2 1 30).vesting 2).released
        = min ((lockedState.vesting 2).released + 30) (lockedState.vesting 2).total
    ∧ mintedLockedState.vesting = lockedState.vesting :=
  ⟨(released_le_total_inv (n := 2) 1 [] lockedState 2 1 30 2).1,
   (released_le_total_inv (n := 2) 1 [] lockedState 2 1 30 2).2.1 (by decide) (by decide),
   (released_le_total_inv (n := 2) 1 [] lockedState 2 1 30 2).2.2 1 0 1 5
     mintedLockedState rfl⟩

end UFCA
